import Mathlib

/-!
Shallow embedding of the PageRank program (src/pagerank.py) and proofs of
the specification's claims about it.

The program's Python dictionaries (which iterate in insertion order) are
modelled as association lists; Python sets of pages are modelled as
duplicate-free lists in iteration order.  Python floats are modelled as
exact rationals.  Fallible dictionary subscripts and the other runtime
errors the interpreter can raise (KeyError, IndexError, NameError,
ZeroDivisionError) are modelled with `Except String`.  The two sources of
randomness in `sample_pagerank` (`random.choice` and `random.random`) are
modelled by explicit parameters: an index choosing the start page and a
stream of draws.
-/

abbrev Page := String

/-- A Python dict in insertion order: an association list from keys to values. -/
abbrev Dict (β : Type) := List (Page × β)

/-- `corpus`: dict mapping each page to the set of pages it links to
(`crawl` produces sets, modelled as duplicate-free lists). -/
abbrev Corpus := Dict (List Page)

namespace PageRank

/-- First value stored under key `p`, as Python `d[p]` / `p in d` read it. -/
def dlookup {β : Type} : Dict β → Page → Option β
  | [], _ => none
  | (k, v) :: rest, p => if k = p then some v else dlookup rest p

/-- `list(d.keys())`: the keys in insertion order. -/
def dictKeys {β : Type} (d : Dict β) : List Page := d.map Prod.fst

/-- Python `d[p]`: the stored value, or a KeyError. -/
def dictGet {β : Type} (d : Dict β) (p : Page) : Except String β :=
  match dlookup d p with
  | some v => .ok v
  | none => .error "KeyError"

/-- Sum of a rank/probability dict's values. -/
def sumValues (d : Dict ℚ) : ℚ := (d.map Prod.snd).sum

/-- Well-formedness `crawl` guarantees for the corpus it returns: keys are
distinct, each link set is duplicate-free, and every link target is a key
of the corpus (links to pages outside the corpus are filtered out). -/
def WF (corpus : Corpus) : Prop :=
  (dictKeys corpus).Nodup ∧
  ∀ kv ∈ corpus, kv.2.Nodup ∧ ∀ q ∈ kv.2, q ∈ dictKeys corpus

instance (corpus : Corpus) : Decidable (WF corpus) := by
  unfold WF; infer_instance

/-- `transition_model(corpus, page, damping_factor)` (src/pagerank.py:51-76).
`corpus[page]` raises KeyError when `page` is not a key (in particular on an
empty corpus); afterwards every page of the corpus gets the base probability,
and the pages `page` links to additionally get the follow probability. -/
def transitionModel (corpus : Corpus) (page : Page) (dampingFactor : ℚ) :
    Except String (Dict ℚ) :=
  match dlookup corpus page with
  | none => .error "KeyError"
  | some linkedPages =>
    let corpusLength : ℚ := corpus.length
    let linkedPagesLength : ℚ := linkedPages.length
    let randomPageProbability : ℚ :=
      if linkedPages.length ≠ 0 then (1 / corpusLength) * (1 - dampingFactor)
      else 1 / corpusLength
    let linkedPageProbability : ℚ :=
      if linkedPages.length ≠ 0 then (1 / linkedPagesLength) * dampingFactor
      else 0
    .ok (corpus.map (fun kv =>
      (kv.1, if kv.1 ∈ linkedPages
             then randomPageProbability + linkedPageProbability
             else randomPageProbability)))

/-- State of `sample_pagerank`'s loop: the current page, the memo of
transition distributions (`pages_probabilities`) and the visit counts
(`pages_count`). -/
structure SampleState where
  currentPage : Page
  pagesProbabilities : Dict (Dict ℚ)
  pagesCount : Dict Nat
deriving Repr, DecidableEq

/-- `if current_page in pages_count: += 1 else: = 1` (src/pagerank.py:95-98);
a new key is appended at the end, as a Python dict stores it. -/
def bumpCount : Dict Nat → Page → Dict Nat
  | [], p => [(p, 1)]
  | (k, v) :: rest, p =>
      if k = p then (k, v + 1) :: rest else (k, v) :: bumpCount rest p

/-- The inverse-CDF selection loop (src/pagerank.py:106-110): walk the
distribution in order, accumulating `prob_count`, and return the first key
at which `rgn < prob_count`; `none` models the loop ending without a break. -/
def selectAux (rgn : ℚ) : Dict ℚ → ℚ → Option Page
  | [], _ => none
  | (key, p) :: rest, probCount =>
      let probCount' := probCount + p
      if rgn < probCount' then some key else selectAux rgn rest probCount'

/-- The page the walk moves to: the selected key, or (on fall-through,
when no break fires) the unchanged current page. -/
def nextPage (probs : Dict ℚ) (rgn : ℚ) (cur : Page) : Page :=
  match selectAux rgn probs 0 with
  | some key => key
  | none => cur

/-- One iteration of `sample_pagerank`'s `for i in range(n)` body
(src/pagerank.py:91-110): count the visit, fetch (or compute and memoise)
the current page's transition distribution, and select the next page. -/
def sampleStep (corpus : Corpus) (dampingFactor : ℚ) (rgn : ℚ) (s : SampleState) :
    Except String SampleState :=
  let pagesCount := bumpCount s.pagesCount s.currentPage
  match dlookup s.pagesProbabilities s.currentPage with
  | some currentPageProbabilities =>
      .ok ⟨nextPage currentPageProbabilities rgn s.currentPage,
           s.pagesProbabilities, pagesCount⟩
  | none =>
      match transitionModel corpus s.currentPage dampingFactor with
      | .error e => .error e
      | .ok currentPageProbabilities =>
          .ok ⟨nextPage currentPageProbabilities rgn s.currentPage,
               s.pagesProbabilities ++ [(s.currentPage, currentPageProbabilities)],
               pagesCount⟩

/-- The `for i in range(n)` loop; `i` indexes the stream of `random.random()`
draws. -/
def sampleLoop (corpus : Corpus) (dampingFactor : ℚ) (draws : Nat → ℚ) :
    Nat → Nat → SampleState → Except String SampleState
  | 0, _, s => .ok s
  | m + 1, i, s =>
      match sampleStep corpus dampingFactor (draws i) s with
      | .error e => .error e
      | .ok s' => sampleLoop corpus dampingFactor draws m (i + 1) s'

/-- `random.choice(list(corpus.keys()))`, with the choice of index made
explicit; only called on a non-empty corpus. -/
def startPage (corpus : Corpus) (choiceIdx : Nat) : Page :=
  match dictKeys corpus with
  | [] => ""
  | k :: ks => (k :: ks).get ⟨choiceIdx % (k :: ks).length, Nat.mod_lt _ (Nat.succ_pos _)⟩

/-- `sample_pagerank(corpus, damping_factor, n)` (src/pagerank.py:79-116).
`random.choice` on an empty corpus raises IndexError; otherwise the walk runs
`n` steps and each visited page maps to its visit count divided by `n`. -/
def samplePagerank (corpus : Corpus) (dampingFactor : ℚ) (n : Nat)
    (choiceIdx : Nat) (draws : Nat → ℚ) : Except String (Dict ℚ) :=
  match dictKeys corpus with
  | [] => .error "IndexError"
  | _ :: _ =>
      match sampleLoop corpus dampingFactor draws n 0
          ⟨startPage corpus choiceIdx, [], []⟩ with
      | .error e => .error e
      | .ok final =>
          .ok (final.pagesCount.map (fun kv => (kv.1, (kv.2 : ℚ) / (n : ℚ))))

/-- State of `iterate_pagerank`'s while-loop.  `referencePage` models the
Python loop variable `reference_page`, which persists across iterations of
the while-loop and is read unassigned (`none` = NameError) or stale by the
zero-inbound branch at src/pagerank.py:151. -/
structure IterState where
  pageRanks : Dict ℚ
  currentCount : Nat
  convergenceCount : Nat
  referencePage : Option Page
deriving Repr, DecidableEq

/-- Python dict assignment `d[p] = v`: replace the stored value, appending
the key when it is new. -/
def setVal {β : Type} : Dict β → Page → β → Dict β
  | [], p, v => [(p, v)]
  | (k, w) :: rest, p, v =>
      if k = p then (k, v) :: rest else (k, w) :: setVal rest p v

/-- Record `page` as mentioning `referencedPage` (src/pagerank.py:134-138):
add `page` to the set stored for `referencedPage`, creating the entry when
absent. -/
def addMention (m : Dict (List Page)) (referencedPage page : Page) :
    Dict (List Page) :=
  match dlookup m referencedPage with
  | some s => if page ∈ s then m else setVal m referencedPage (s ++ [page])
  | none => m ++ [(referencedPage, [page])]

/-- `pages_that_mention_pages`, built by scanning the corpus in order. -/
def buildMentions (corpus : Corpus) : Dict (List Page) :=
  corpus.foldl (fun m kv => kv.2.foldl (fun m' ref => addMention m' ref kv.1) m) []

/-- `page_ranks` after initialisation: every page starts at `1 / page_count`. -/
def initialRanks (corpus : Corpus) : Dict ℚ :=
  corpus.map (fun kv => (kv.1, 1 / (corpus.length : ℚ)))

/-- The contributor sum of src/pagerank.py:148-149: for each page that
mentions the current page, add `damping_factor * rank / (len(links) or
page_count)` (Python `x or y` falls back to `page_count` when the length
is zero). -/
def referencesSumAux (corpus : Corpus) (dampingFactor : ℚ) (pageRanks : Dict ℚ)
    (pageCount : Nat) : List Page → ℚ → Except String ℚ
  | [], acc => .ok acc
  | referencePage :: rest, acc =>
      match dlookup pageRanks referencePage, dlookup corpus referencePage with
      | some rank, some links =>
          referencesSumAux corpus dampingFactor pageRanks pageCount rest
            (acc + dampingFactor *
              (rank / (if links.length = 0 then (pageCount : ℚ) else (links.length : ℚ))))
      | _, _ => .error "KeyError"

/-- `references_sum` together with the value `reference_page` holds after the
branch (src/pagerank.py:146-151): when some page mentions the current page,
sum over those contributors (the loop leaves `reference_page` at the last
contributor); when none does, the code reads `reference_page` as left over
from an earlier iteration — never assigned (`none`) is a NameError. -/
def referencesResult (corpus : Corpus) (dampingFactor : ℚ) (mentions : Dict (List Page))
    (s : IterState) (currentPage : Page) : Except String (ℚ × Option Page) :=
  match dlookup mentions currentPage with
  | some refs =>
      match referencesSumAux corpus dampingFactor s.pageRanks corpus.length refs 0 with
      | .ok sum =>
          .ok (sum, match refs.getLast? with
                    | some p => some p
                    | none => s.referencePage)
      | .error e => .error e
  | none =>
      match s.referencePage with
      | none => .error "NameError"
      | some referencePage =>
          match dlookup s.pageRanks referencePage with
          | some rank =>
              .ok (dampingFactor * (rank / (corpus.length : ℚ)), s.referencePage)
          | none => .error "KeyError"

/-- One iteration of `iterate_pagerank`'s while-loop body
(src/pagerank.py:145-159): pick the round-robin page, compute its
contributor sum (reading the leftover `reference_page` when no page mentions
it, src/pagerank.py:150-151), compare the change to 0.001 before writing the
new rank in place, and advance the counters. -/
def iterStep (corpus : Corpus) (dampingFactor : ℚ) (mentions : Dict (List Page))
    (s : IterState) : Except String IterState :=
  match (dictKeys corpus).get? (s.currentCount % corpus.length) with
  | none => .error "IndexError"
  | some currentPage =>
    match referencesResult corpus dampingFactor mentions s currentPage with
    | .error e => .error e
    | .ok (referencesSum, referencePage) =>
        match dlookup s.pageRanks currentPage with
        | none => .error "KeyError"
        | some oldRank =>
            let newRank := (1 - dampingFactor) / (corpus.length : ℚ) + referencesSum
            .ok ⟨setVal s.pageRanks currentPage newRank,
                 s.currentCount + 1,
                 (if |oldRank - newRank| ≤ 1 / 1000 then s.convergenceCount + 1 else 0),
                 referencePage⟩

/-- The while-loop (src/pagerank.py:143-159) with explicit fuel: it breaks
(returning the final state) as soon as `convergence_count >= page_count`
holds at the top of an iteration; `none` means the fuel ran out with the
loop still running. -/
def iterLoop (corpus : Corpus) (dampingFactor : ℚ) (mentions : Dict (List Page)) :
    Nat → IterState → Except String (Option IterState)
  | 0, _ => .ok none
  | fuel + 1, s =>
      if s.convergenceCount ≥ corpus.length then .ok (some s)
      else
        match iterStep corpus dampingFactor mentions s with
        | .error e => .error e
        | .ok s' => iterLoop corpus dampingFactor mentions fuel s'

/-- The state `iterate_pagerank` enters its while-loop with. -/
def initialIterState (corpus : Corpus) : IterState :=
  ⟨initialRanks corpus, 0, 0, none⟩

/-- `iterate_pagerank(corpus, damping_factor)` (src/pagerank.py:119-161).
`starting_rank = 1 / page_count` raises ZeroDivisionError on an empty
corpus; otherwise the while-loop runs on the initial state. -/
def iteratePagerank (corpus : Corpus) (dampingFactor : ℚ) (fuel : Nat) :
    Except String (Option (Dict ℚ)) :=
  if corpus.length = 0 then .error "ZeroDivisionError"
  else
    match iterLoop corpus dampingFactor (buildMentions corpus) fuel
        (initialIterState corpus) with
    | .error e => .error e
    | .ok none => .ok none
    | .ok (some s) => .ok (some s.pageRanks)

/-- Modelled from the spec: the convergence-counter update rule of §4.3 —
a running counter of consecutive updates whose change was at most the
threshold, reset to zero by any update whose change exceeds it.  Stated
separately, in the spec's words, to compare with `iterStep`. -/
def specConvergenceCounter (threshold change : ℚ) (counter : Nat) : Nat :=
  if change ≤ threshold then counter + 1 else 0

/-- The ghost trace of `sample_pagerank`'s walk: the page that is current
(and gets its visit counted) at each of the `n` iterations. -/
def sampleVisits (corpus : Corpus) (dampingFactor : ℚ) (draws : Nat → ℚ) :
    Nat → Nat → SampleState → List Page
  | 0, _, _ => []
  | m + 1, i, s =>
      s.currentPage ::
        (match sampleStep corpus dampingFactor (draws i) s with
         | .ok s' => sampleVisits corpus dampingFactor draws m (i + 1) s'
         | .error _ => [])

/-- Invariant of the `pages_probabilities` memo: every cached distribution
ranges over exactly the corpus's pages. -/
def CacheOK (corpus : Corpus) (cache : Dict (Dict ℚ)) : Prop :=
  ∀ kv ∈ cache, dictKeys kv.2 = dictKeys corpus

/-- `Except.ok`-ness, to state that a call returns a result rather than
raising. -/
def returnsOk {β : Type} : Except String β → Bool
  | .ok _ => true
  | .error _ => false

/-- The three-page corpus of the spec's concrete transition-model scenario
(also src/test.py, with pages renamed A, B, C as in the spec). -/
def exCorpus3 : Corpus := [("A", ["B", "C"]), ("B", ["C"]), ("C", ["B"])]

/-- A corpus whose third page C has no inbound links, while the first two
pages do: the iterative update reaches the zero-inbound branch only after
`reference_page` was assigned, so it reads a stale value. -/
def exCorpusNoInbound : Corpus := [("A", ["B"]), ("B", ["A"]), ("C", ["A"])]

/-- A single page with no links: its very first update has an empty
inbound set and `reference_page` was never assigned. -/
def exCorpusLonely : Corpus := [("A", [])]

/-- Four-page corpus with a dangling page D that every other page links to:
every page has inbound links, and D has none outbound. -/
def exCorpus4 : Corpus :=
  [("A", ["B", "D"]), ("B", ["C", "D"]), ("C", ["A", "D"]), ("D", [])]

/-- Two pages linking to each other; with damping factor 1 the teleport
term vanishes. -/
def exCorpus2 : Corpus := [("A", ["B"]), ("B", ["A"])]

/-- A dangling first page, for the uniform-distribution case. -/
def exCorpusDangling : Corpus := [("A", []), ("B", ["A"]), ("C", ["A"])]

/-! ### Dictionary lemmas -/

theorem dlookup_nil {β : Type} (p : Page) : dlookup ([] : Dict β) p = none := rfl

theorem dlookup_isSome_iff {β : Type} (d : Dict β) (p : Page) :
    (dlookup d p).isSome = true ↔ p ∈ dictKeys d := by
  induction d with
  | nil => simp [dlookup, dictKeys]
  | cons kv rest ih =>
    obtain ⟨k, v⟩ := kv
    by_cases h : k = p
    · subst h; simp [dlookup, dictKeys]
    · simp [dlookup, dictKeys, h, ih, Ne.symm h]

theorem dlookup_mem {β : Type} {d : Dict β} {p : Page} {v : β}
    (h : dlookup d p = some v) : (p, v) ∈ d := by
  induction d with
  | nil => simp [dlookup] at h
  | cons kv rest ih =>
    obtain ⟨k, w⟩ := kv
    by_cases hk : k = p
    · subst hk
      simp only [dlookup, if_pos rfl] at h
      injection h with h
      subst h
      exact List.mem_cons_self _ _
    · simp only [dlookup, if_neg hk] at h
      exact List.mem_cons_of_mem _ (ih h)

theorem dlookup_map_key {α β : Type} (d : List (Page × α)) (g : Page → β) (q : Page) :
    dlookup (d.map (fun kv => (kv.1, g kv.1))) q =
      if q ∈ dictKeys d then some (g q) else none := by
  induction d with
  | nil => simp [dlookup, dictKeys]
  | cons kv rest ih =>
    obtain ⟨k, v⟩ := kv
    by_cases h : k = q
    · subst h; simp [dlookup, dictKeys]
    · have h' : ¬ q = k := fun e => h e.symm
      simp only [List.map_cons, dlookup, if_neg h, ih, dictKeys, List.mem_cons, h',
        false_or]

theorem dlookup_map_val {α β : Type} (d : List (Page × α)) (f : α → β) (q : Page) :
    dlookup (d.map (fun kv => (kv.1, f kv.2))) q = (dlookup d q).map f := by
  induction d with
  | nil => simp [dlookup]
  | cons kv rest ih =>
    obtain ⟨k, v⟩ := kv
    by_cases h : k = q
    · subst h; simp [dlookup]
    · simp [dlookup, h, ih]

theorem dictKeys_map_pair {α β : Type} (d : List (Page × α)) (f : Page × α → β) :
    dictKeys (d.map (fun kv => (kv.1, f kv))) = dictKeys d := by
  simp [dictKeys, List.map_map, Function.comp_def]

theorem mem_of_dictKeys {β : Type} {d : Dict β} {p : Page} (h : p ∈ dictKeys d) :
    ∃ v, dlookup d p = some v := by
  have := (dlookup_isSome_iff d p).mpr h
  cases hv : dlookup d p with
  | none => rw [hv] at this; simp at this
  | some v => exact ⟨v, rfl⟩

theorem corpus_ne_nil_of_dlookup {corpus : Corpus} {p : Page} {v : List Page}
    (h : dlookup corpus p = some v) : corpus ≠ [] := by
  intro hnil; subst hnil; simp [dlookup] at h

/-! ### Transition model lemmas -/

theorem transitionModel_eq_ok {corpus : Corpus} {page : Page} {d : ℚ}
    {linked : List Page} (hp : dlookup corpus page = some linked) :
    transitionModel corpus page d = .ok (corpus.map (fun kv =>
      (kv.1,
        if kv.1 ∈ linked
        then (if linked.length ≠ 0 then (1 / (corpus.length : ℚ)) * (1 - d)
              else 1 / (corpus.length : ℚ)) +
             (if linked.length ≠ 0 then (1 / (linked.length : ℚ)) * d else 0)
        else (if linked.length ≠ 0 then (1 / (corpus.length : ℚ)) * (1 - d)
              else 1 / (corpus.length : ℚ))))) := by
  simp only [transitionModel, hp]

theorem transitionModel_dictKeys {corpus : Corpus} {page : Page} {d : ℚ}
    {out : Dict ℚ} (h : transitionModel corpus page d = .ok out) :
    dictKeys out = dictKeys corpus := by
  cases hp : dlookup corpus page with
  | none => simp [transitionModel, hp] at h
  | some linked =>
    rw [transitionModel_eq_ok hp] at h
    simp only [Except.ok.injEq] at h
    rw [← h, dictKeys_map_pair]

theorem transitionModel_ok_of_mem {corpus : Corpus} {page : Page} (d : ℚ)
    (h : page ∈ dictKeys corpus) :
    ∃ out, transitionModel corpus page d = .ok out ∧ dictKeys out = dictKeys corpus := by
  obtain ⟨linked, hl⟩ := mem_of_dictKeys h
  exact ⟨_, transitionModel_eq_ok hl, transitionModel_dictKeys (transitionModel_eq_ok hl)⟩

theorem sum_map_ite (l : List (Page × List Page)) (S : List Page) (a b : ℚ) :
    (((l.map (fun kv => (kv.1, if kv.1 ∈ S then a else b))).map Prod.snd).sum : ℚ)
      = b * l.length + (a - b) * ((dictKeys l).countP (fun q => decide (q ∈ S))) := by
  induction l with
  | nil => simp [dictKeys]
  | cons kv rest ih =>
    simp only [List.map_cons, List.sum_cons, ih, dictKeys, List.countP_cons,
      List.length_cons]
    by_cases h : kv.1 ∈ S
    · simp [h]
      ring
    · simp [h]
      ring

theorem countP_mem_eq_length {keys S : List Page} (h1 : keys.Nodup) (h2 : S.Nodup)
    (h3 : ∀ q ∈ S, q ∈ keys) :
    keys.countP (fun q => decide (q ∈ S)) = S.length := by
  rw [List.countP_eq_length_filter]
  have hperm : List.Perm (keys.filter (fun q => decide (q ∈ S))) S := by
    apply List.perm_of_nodup_nodup_toFinset_eq (h1.filter _) h2
    ext x
    simp only [List.mem_toFinset, List.mem_filter, decide_eq_true_eq]
    exact ⟨fun hx => hx.2, fun hx => ⟨h3 x hx, hx⟩⟩
  exact hperm.length_eq

theorem transitionModel_sumValues {corpus : Corpus} {p : Page} {d : ℚ} {out : Dict ℚ}
    (hwf : WF corpus) (hok : transitionModel corpus p d = .ok out) :
    sumValues out = 1 := by
  cases hl : dlookup corpus p with
  | none => simp [transitionModel, hl] at hok
  | some linked =>
    rw [transitionModel_eq_ok hl] at hok
    simp only [Except.ok.injEq] at hok
    subst hok
    have hne : corpus ≠ [] := corpus_ne_nil_of_dlookup hl
    have hN : (corpus.length : ℚ) ≠ 0 := by
      exact_mod_cast fun h => hne (List.length_eq_zero.mp h)
    unfold sumValues
    rw [sum_map_ite]
    by_cases hlen : linked.length = 0
    · have hc : (dictKeys corpus).countP (fun q => decide (q ∈ linked)) = 0 := by
        rw [List.length_eq_zero.mp hlen]
        simp
      rw [hc]
      have hfalse : ¬ (linked.length ≠ 0) := by simpa using hlen
      rw [Nat.cast_zero, mul_zero, add_zero, if_neg hfalse]
      field_simp
    · have hk : (linked.length : ℚ) ≠ 0 := by exact_mod_cast hlen
      have hpl : (p, linked) ∈ corpus := dlookup_mem hl
      have hcount : (dictKeys corpus).countP (fun q => decide (q ∈ linked))
          = linked.length :=
        countP_mem_eq_length hwf.1 (hwf.2 _ hpl).1 (hwf.2 _ hpl).2
      rw [hcount, if_pos hlen, if_pos hlen]
      field_simp
      ring

/-! ### C1, C4, C6, C7, C10 -/

/-- C1: for a page `p` with `k > 0` outgoing links `L`, `transition_model`
gives every page of the corpus probability `(1-d)/N`, plus `d/k` more to the
pages of `L`; and on the concrete graph `{A:{B,C}, B:{C}, C:{B}}` with
`d = 0.85`, page A's distribution is `{A: 0.05, B: 0.475, C: 0.475}`. -/
theorem transition_model_linked (corpus : Corpus) (p : Page) (d : ℚ)
    (linked : List Page) (hp : dlookup corpus p = some linked) (hk : linked ≠ []) :
    (∃ out, transitionModel corpus p d = .ok out ∧
      ∀ q ∈ dictKeys corpus,
        dlookup out q = some ((1 - d) / (corpus.length : ℚ) +
          if q ∈ linked then d / (linked.length : ℚ) else 0)) ∧
    transitionModel exCorpus3 "A" (17 / 20) =
      .ok [("A", 1 / 20), ("B", 19 / 40), ("C", 19 / 40)] := by
  constructor
  · have hlen : linked.length ≠ 0 := fun h => hk (List.length_eq_zero.mp h)
    refine ⟨_, transitionModel_eq_ok hp, fun q hq => ?_⟩
    simp only [ne_eq, hlen, not_false_eq_true, if_true]
    rw [dlookup_map_key corpus
      (fun x => if x ∈ linked
        then 1 / (corpus.length : ℚ) * (1 - d) + 1 / (linked.length : ℚ) * d
        else 1 / (corpus.length : ℚ) * (1 - d)) q, if_pos hq]
    by_cases hmem : q ∈ linked <;>
      simp [hmem, one_div, inv_mul_eq_div]
  · simp [transitionModel, exCorpus3, dlookup]
    norm_num

/-- Witness for C1 at the corpus `{A:{B,C}, B:{C}, C:{B}}`, page A,
damping factor 0.85. -/
theorem transition_model_linked_witness :
    (∃ out, transitionModel exCorpus3 "A" (17 / 20) = .ok out ∧
      ∀ q ∈ dictKeys exCorpus3,
        dlookup out q = some ((1 - 17 / 20) / (exCorpus3.length : ℚ) +
          if q ∈ ["B", "C"] then (17 / 20) / ((["B", "C"] : List Page).length : ℚ)
          else 0)) ∧
    transitionModel exCorpus3 "A" (17 / 20) =
      .ok [("A", 1 / 20), ("B", 19 / 40), ("C", 19 / 40)] :=
  transition_model_linked exCorpus3 "A" (17 / 20) ["B", "C"] (by decide) (by decide)

/-- C4: for a page with zero outgoing links, `transition_model` is the
uniform distribution `1/N` over every page of the corpus, for every damping
factor in `[0, 1]` (the branch at src/pagerank.py:67-69 never reads it). -/
theorem transition_model_dangling (corpus : Corpus) (p : Page) (d : ℚ)
    (hp : dlookup corpus p = some []) (_hd0 : 0 ≤ d) (_hd1 : d ≤ 1) :
    transitionModel corpus p d =
      .ok ((dictKeys corpus).map (fun q => (q, 1 / (corpus.length : ℚ)))) := by
  rw [transitionModel_eq_ok hp]
  simp only [Except.ok.injEq, dictKeys, List.map_map]
  simp [Function.comp_def]

/-- Witness for C4: the dangling page A of `{A:{}, B:{A}, C:{A}}` with
damping factor 1. -/
theorem transition_model_dangling_witness :
    transitionModel exCorpusDangling "A" 1 =
      .ok ((dictKeys exCorpusDangling).map
        (fun q => (q, 1 / (exCorpusDangling.length : ℚ)))) :=
  transition_model_dangling exCorpusDangling "A" 1 (by decide) (by norm_num)
    (by norm_num)

/-- C6's counterexample: with damping factor `d = 1` (which lies in `[0,1]`)
and the corpus `{A:{B}, B:{A}}`, `transition_model(A)` is `{A: 0, B: 1}`
whose entry for A is not strictly positive. -/
theorem transition_model_zero_entry :
    (0 : ℚ) ≤ 1 ∧ (1 : ℚ) ≤ 1 ∧
    transitionModel exCorpus2 "A" 1 = .ok [("A", 0), ("B", 1)] ∧
    ¬ (∀ kv ∈ [(("A" : Page), (0 : ℚ)), ("B", 1)], 0 < kv.2) := by
  refine ⟨by norm_num, le_refl 1, ?_, ?_⟩
  · simp [transitionModel, exCorpus2, dlookup]
  · intro h
    have := h ("A", 0) (by simp)
    simp at this

/-- C6 (amended): for every well-formed corpus, page and damping factor in
`[0,1]`, the distribution has one entry per page of the corpus, sums to 1
(so in particular within `1e-9`), and every entry is nonnegative — strictly
positive whenever `d < 1`. -/
theorem transition_model_invariants (corpus : Corpus) (p : Page) (d : ℚ)
    (linked : List Page) (hwf : WF corpus) (hp : dlookup corpus p = some linked)
    (hd0 : 0 ≤ d) (hd1 : d ≤ 1) :
    ∃ out, transitionModel corpus p d = .ok out ∧
      out.length = corpus.length ∧ dictKeys out = dictKeys corpus ∧
      |sumValues out - 1| ≤ 1 / 1000000000 ∧
      (∀ kv ∈ out, 0 ≤ kv.2) ∧
      (d < 1 → ∀ kv ∈ out, 0 < kv.2) := by
  have hne : corpus ≠ [] := corpus_ne_nil_of_dlookup hp
  have hN : (0 : ℚ) < (corpus.length : ℚ) := by
    exact_mod_cast List.length_pos.mpr hne
  by_cases hlen : linked.length = 0
  · obtain rfl : linked = [] := List.length_eq_zero.mp hlen
    have hout : transitionModel corpus p d =
        .ok (corpus.map (fun kv => (kv.1, 1 / (corpus.length : ℚ)))) := by
      rw [transitionModel_eq_ok hp]
      simp
    refine ⟨_, hout, by simp, by rw [dictKeys_map_pair], ?_, ?_, ?_⟩
    · rw [transitionModel_sumValues hwf hout]
      norm_num
    · intro kv hkv
      simp only [List.mem_map] at hkv
      obtain ⟨kw, hkw, rfl⟩ := hkv
      dsimp only
      positivity
    · intro _ kv hkv
      simp only [List.mem_map] at hkv
      obtain ⟨kw, hkw, rfl⟩ := hkv
      dsimp only
      positivity
  · have hk : (0 : ℚ) < (linked.length : ℚ) := by
      exact_mod_cast Nat.pos_of_ne_zero hlen
    have hout : transitionModel corpus p d =
        .ok (corpus.map (fun kv =>
          (kv.1, if kv.1 ∈ linked
                 then 1 / (corpus.length : ℚ) * (1 - d) + 1 / (linked.length : ℚ) * d
                 else 1 / (corpus.length : ℚ) * (1 - d)))) := by
      rw [transitionModel_eq_ok hp]
      simp [hlen]
    refine ⟨_, hout, by simp, by rw [dictKeys_map_pair], ?_, ?_, ?_⟩
    · rw [transitionModel_sumValues hwf hout]
      norm_num
    · intro kv hkv
      simp only [List.mem_map] at hkv
      obtain ⟨kw, hkw, rfl⟩ := hkv
      dsimp only
      have t1 : (0 : ℚ) ≤ 1 / (corpus.length : ℚ) * (1 - d) := by
        apply mul_nonneg (by positivity)
        linarith
      have t2 : (0 : ℚ) ≤ 1 / (linked.length : ℚ) * d :=
        mul_nonneg (by positivity) hd0
      by_cases hmem : kw.1 ∈ linked
      · rw [if_pos hmem]
        linarith
      · rw [if_neg hmem]
        exact t1
    · intro hdlt kv hkv
      simp only [List.mem_map] at hkv
      obtain ⟨kw, hkw, rfl⟩ := hkv
      dsimp only
      have t1 : (0 : ℚ) < 1 / (corpus.length : ℚ) * (1 - d) := by
        apply mul_pos (by positivity)
        linarith
      have t2 : (0 : ℚ) ≤ 1 / (linked.length : ℚ) * d :=
        mul_nonneg (by positivity) hd0
      by_cases hmem : kw.1 ∈ linked
      · rw [if_pos hmem]
        linarith
      · rw [if_neg hmem]
        exact t1

/-- Witness for C6 (amended) with corpus `{A:{B,C}, B:{C}, C:{B}}`, page A
and damping factor 0.85. -/
theorem transition_model_invariants_witness :
    ∃ out, transitionModel exCorpus3 "A" (17 / 20) = .ok out ∧
      out.length = exCorpus3.length ∧ dictKeys out = dictKeys exCorpus3 ∧
      |sumValues out - 1| ≤ 1 / 1000000000 ∧
      (∀ kv ∈ out, 0 ≤ kv.2) ∧
      ((17 : ℚ) / 20 < 1 → ∀ kv ∈ out, 0 < kv.2) :=
  transition_model_invariants exCorpus3 "A" (17 / 20) ["B", "C"] (by decide)
    (by decide) (by norm_num) (by norm_num)

/-- C7: on the empty corpus all three entry points fail with the error the
interpreter raises — `corpus[page]` a KeyError, `random.choice([])` an
IndexError, and `1 / page_count` a ZeroDivisionError — rather than looping
or returning a silent result. -/
theorem empty_graph_raises (p : Page) (d : ℚ) (n choiceIdx fuel : Nat)
    (draws : Nat → ℚ) :
    transitionModel ([] : Corpus) p d = .error "KeyError" ∧
    samplePagerank [] d n choiceIdx draws = .error "IndexError" ∧
    iteratePagerank [] d fuel = .error "ZeroDivisionError" :=
  ⟨rfl, rfl, rfl⟩

theorem selectAux_isSome_of_lt (rgn : ℚ) (probs : Dict ℚ) :
    ∀ acc : ℚ, acc ≤ rgn → rgn < acc + sumValues probs →
      (selectAux rgn probs acc).isSome = true := by
  induction probs with
  | nil =>
    intro acc h1 h2
    simp only [sumValues, List.map_nil, List.sum_nil, add_zero] at h2
    exact absurd h2 (not_lt.mpr h1)
  | cons kv rest ih =>
    intro acc h1 h2
    obtain ⟨k, pr⟩ := kv
    simp only [selectAux]
    by_cases h : rgn < acc + pr
    · simp [h]
    · rw [if_neg h]
      apply ih (acc + pr) (not_lt.mp h)
      have hs : sumValues ((k, pr) :: rest) = pr + sumValues rest := by
        simp [sumValues]
      rw [hs] at h2
      linarith

/-- C10: for a well-formed corpus, any page of it and any draw
`0 ≤ r < 1`, the transition distribution sums to exactly 1, so the
inverse-CDF loop of src/pagerank.py:106-110 always selects some entry and
its fall-through path (which would silently keep the current page) is
unreachable. -/
theorem sample_selection_never_falls_through (corpus : Corpus) (p : Page)
    (d r : ℚ) (hwf : WF corpus) (hp : p ∈ dictKeys corpus)
    (hr0 : 0 ≤ r) (hr1 : r < 1) :
    ∃ out, transitionModel corpus p d = .ok out ∧ sumValues out = 1 ∧
      (selectAux r out 0).isSome = true := by
  obtain ⟨out, hout, _⟩ := transitionModel_ok_of_mem d hp
  have hsum : sumValues out = 1 := transitionModel_sumValues hwf hout
  refine ⟨out, hout, hsum, ?_⟩
  apply selectAux_isSome_of_lt r out 0 hr0
  rw [hsum, zero_add]
  exact hr1

/-- Witness for C10 at the corpus `{A:{B,C}, B:{C}, C:{B}}`, page A,
damping factor 0.85, draw 1/2. -/
theorem sample_selection_never_falls_through_witness :
    ∃ out, transitionModel exCorpus3 "A" (17 / 20) = .ok out ∧
      sumValues out = 1 ∧ (selectAux (1 / 2) out 0).isSome = true :=
  sample_selection_never_falls_through exCorpus3 "A" (17 / 20) (1 / 2)
    (by decide) (by decide) (by norm_num) (by norm_num)

/-! ### Random-walk sampler lemmas -/

theorem selectAux_mem {rgn : ℚ} {probs : Dict ℚ} :
    ∀ {acc : ℚ} {q : Page}, selectAux rgn probs acc = some q → q ∈ dictKeys probs := by
  induction probs with
  | nil => intro acc q h; simp [selectAux] at h
  | cons kv rest ih =>
    intro acc q h
    obtain ⟨k, pr⟩ := kv
    simp only [selectAux] at h
    by_cases hlt : rgn < acc + pr
    · rw [if_pos hlt] at h
      injection h with h
      subst h
      simp [dictKeys]
    · rw [if_neg hlt] at h
      simp only [dictKeys, List.map_cons, List.mem_cons]
      exact Or.inr (ih h)

theorem nextPage_mem {probs : Dict ℚ} {corpus : Corpus} (rgn : ℚ) {cur : Page}
    (hkeys : dictKeys probs = dictKeys corpus) (hcur : cur ∈ dictKeys corpus) :
    nextPage probs rgn cur ∈ dictKeys corpus := by
  unfold nextPage
  cases hs : selectAux rgn probs 0 with
  | none => exact hcur
  | some q => rw [← hkeys]; exact selectAux_mem hs

theorem dlookup_bumpCount (dct : Dict Nat) (c p : Page) :
    dlookup (bumpCount dct c) p =
      if p = c then some ((dlookup dct p).getD 0 + 1) else dlookup dct p := by
  induction dct with
  | nil =>
    by_cases h : p = c
    · subst h; simp [bumpCount, dlookup]
    · have h' : ¬ c = p := fun e => h e.symm
      simp [bumpCount, dlookup, h, h']
  | cons kv rest ih =>
    obtain ⟨k, v⟩ := kv
    by_cases hk : k = c
    · subst hk
      simp only [bumpCount, if_pos rfl]
      by_cases hp : p = k
      · subst hp; simp [dlookup]
      · have h' : ¬ k = p := fun e => hp e.symm
        simp [dlookup, h', hp]
    · simp only [bumpCount, if_neg hk]
      by_cases hp : k = p
      · subst hp
        simp [dlookup, hk]
      · simp [dlookup, hp, ih]

theorem sum_bumpCount (dct : Dict Nat) (c : Page) :
    ((bumpCount dct c).map Prod.snd).sum = (dct.map Prod.snd).sum + 1 := by
  induction dct with
  | nil => simp [bumpCount]
  | cons kv rest ih =>
    obtain ⟨k, v⟩ := kv
    by_cases hk : k = c
    · simp only [bumpCount, if_pos hk, List.map_cons, List.sum_cons]
      omega
    · simp only [bumpCount, if_neg hk, List.map_cons, List.sum_cons, ih]
      omega

theorem dlookup_rankmap (counts : Dict Nat) (n : Nat) (q : Page) :
    dlookup (counts.map (fun kv => (kv.1, (kv.2 : ℚ) / (n : ℚ)))) q =
      (dlookup counts q).map (fun (c : ℕ) => (c : ℚ) / (n : ℚ)) := by
  induction counts with
  | nil => simp [dlookup]
  | cons kv rest ih =>
    obtain ⟨k, v⟩ := kv
    by_cases h : k = q
    · subst h; simp [dlookup]
    · simp [dlookup, h, ih]

theorem map_snd_rankmap (counts : Dict Nat) (n : Nat) :
    (counts.map (fun kv => (kv.1, (kv.2 : ℚ) / (n : ℚ)))).map Prod.snd =
      (counts.map Prod.snd).map (fun (c : ℕ) => (c : ℚ) / (n : ℚ)) := by
  induction counts with
  | nil => rfl
  | cons kv rest ih => simp only [List.map_cons, ih]

theorem sum_map_cast_div (xs : List Nat) (n : Nat) :
    ((xs.map (fun (c : ℕ) => (c : ℚ) / (n : ℚ))).sum : ℚ) = ((xs.sum : ℕ) : ℚ) / (n : ℚ) := by
  induction xs with
  | nil => simp
  | cons x rest ih =>
    simp only [List.map_cons, List.sum_cons, ih]
    push_cast
    ring

theorem sampleStep_ok (corpus : Corpus) (d rgn : ℚ) (s : SampleState)
    (hcur : s.currentPage ∈ dictKeys corpus)
    (hcache : CacheOK corpus s.pagesProbabilities) :
    ∃ s', sampleStep corpus d rgn s = .ok s' ∧
      s'.currentPage ∈ dictKeys corpus ∧
      CacheOK corpus s'.pagesProbabilities ∧
      s'.pagesCount = bumpCount s.pagesCount s.currentPage := by
  cases hm : dlookup s.pagesProbabilities s.currentPage with
  | some probs =>
    refine ⟨⟨nextPage probs rgn s.currentPage, s.pagesProbabilities,
             bumpCount s.pagesCount s.currentPage⟩, ?_, ?_, hcache, rfl⟩
    · simp [sampleStep, hm]
    · exact nextPage_mem rgn (hcache _ (dlookup_mem hm)) hcur
  | none =>
    obtain ⟨out, hout, hkeys⟩ := transitionModel_ok_of_mem d hcur
    refine ⟨⟨nextPage out rgn s.currentPage,
             s.pagesProbabilities ++ [(s.currentPage, out)],
             bumpCount s.pagesCount s.currentPage⟩, ?_, ?_, ?_, rfl⟩
    · simp [sampleStep, hm, hout]
    · exact nextPage_mem rgn hkeys hcur
    · intro kv hkv
      rcases List.mem_append.mp hkv with h | h
      · exact hcache _ h
      · have : kv = (s.currentPage, out) := by simpa using h
        rw [this]
        exact hkeys

theorem sampleLoop_ok (corpus : Corpus) (d : ℚ) (draws : Nat → ℚ) :
    ∀ (m i : Nat) (s : SampleState), s.currentPage ∈ dictKeys corpus →
      CacheOK corpus s.pagesProbabilities →
      ∃ s', sampleLoop corpus d draws m i s = .ok s' ∧
        (∀ p, (dlookup s'.pagesCount p).getD 0 =
          (dlookup s.pagesCount p).getD 0 +
            (sampleVisits corpus d draws m i s).count p) ∧
        (∀ p, (dlookup s'.pagesCount p).isSome =
          ((dlookup s.pagesCount p).isSome ||
            decide (p ∈ sampleVisits corpus d draws m i s))) ∧
        ((s'.pagesCount.map Prod.snd).sum = (s.pagesCount.map Prod.snd).sum + m) := by
  intro m
  induction m with
  | zero =>
    intro i s hcur hcache
    exact ⟨s, rfl, fun p => by simp [sampleVisits], fun p => by simp [sampleVisits],
      by simp⟩
  | succ m ih =>
    intro i s hcur hcache
    obtain ⟨s₁, hstep, hcur₁, hcache₁, hcnt₁⟩ :=
      sampleStep_ok corpus d (draws i) s hcur hcache
    obtain ⟨s', hloop, hgetD, hsome, hsum⟩ := ih (i + 1) s₁ hcur₁ hcache₁
    have hv : sampleVisits corpus d draws (m + 1) i s =
        s.currentPage :: sampleVisits corpus d draws m (i + 1) s₁ := by
      simp only [sampleVisits, hstep]
    refine ⟨s', ?_, ?_, ?_, ?_⟩
    · simp only [sampleLoop, hstep, hloop]
    · intro p
      rw [hv]
      have h1 := hgetD p
      rw [hcnt₁, dlookup_bumpCount] at h1
      by_cases hp : p = s.currentPage
      · subst hp
        rw [if_pos rfl, Option.getD_some] at h1
        rw [h1, List.count_cons]
        simp
        omega
      · rw [if_neg hp] at h1
        rw [h1, List.count_cons]
        have : ¬ s.currentPage = p := fun e => hp e.symm
        simp [this]
    · intro p
      rw [hv]
      have h2 := hsome p
      rw [hcnt₁, dlookup_bumpCount] at h2
      by_cases hp : p = s.currentPage
      · subst hp
        rw [if_pos rfl] at h2
        rw [h2]
        simp
      · rw [if_neg hp] at h2
        rw [h2]
        simp [hp]
    · rw [hsum, hcnt₁, sum_bumpCount]
      omega

theorem corpus_cons_of_ne_nil {corpus : Corpus} (hne : corpus ≠ []) :
    ∃ kv rest, corpus = kv :: rest := by
  cases corpus with
  | nil => exact absurd rfl hne
  | cons kv rest => exact ⟨kv, rest, rfl⟩

theorem startPage_mem (corpus : Corpus) (choiceIdx : Nat) (hne : corpus ≠ []) :
    startPage corpus choiceIdx ∈ dictKeys corpus := by
  obtain ⟨kv, rest, rfl⟩ := corpus_cons_of_ne_nil hne
  have hks : dictKeys (kv :: rest) = kv.1 :: dictKeys rest := rfl
  unfold startPage
  rw [hks]
  exact List.get_mem _ _ _

/-! ### C8 and C9 -/

/-- C8's counterexample: `sample_pagerank` does no parameter validation —
with the sample count `n = 0 < 1` it silently returns the empty map, and
with the damping factor 2 (outside `[0,1]`) it silently returns a computed
result; neither call fails. -/
theorem sample_pagerank_accepts_invalid_parameters :
    samplePagerank exCorpus3 (17 / 20) 0 0 (fun _ => 1 / 2) = .ok [] ∧
    returnsOk (samplePagerank exCorpus3 2 3 0 (fun _ => 1 / 2)) = true := by
  constructor
  · rfl
  · obtain ⟨s', hloop, _, _, _⟩ := sampleLoop_ok exCorpus3 2 (fun _ => 1 / 2) 3 0
      ⟨startPage exCorpus3 0, [], []⟩ (by decide) (fun kw hkw => by simp at hkw)
    have hok : samplePagerank exCorpus3 2 3 0 (fun _ => 1 / 2) =
        .ok (s'.pagesCount.map (fun kw => (kw.1, (kw.2 : ℚ) / ((3 : Nat) : ℚ)))) := by
      simp only [samplePagerank, exCorpus3, dictKeys, List.map_cons] at hloop ⊢
      rw [hloop]
    rw [hok]
    rfl

/-- C8 (amended): `sample_pagerank` performs no parameter validation: on any
non-empty corpus it returns a result for every damping factor (invalid ones
included) and every sample count, and for `n = 0` the silently computed
result is the empty map. -/
theorem sample_pagerank_no_validation (corpus : Corpus) (d : ℚ) (n choiceIdx : Nat)
    (draws : Nat → ℚ) (hne : corpus ≠ []) :
    (∃ out, samplePagerank corpus d n choiceIdx draws = .ok out) ∧
    samplePagerank corpus d 0 choiceIdx draws = .ok [] := by
  have hstart := startPage_mem corpus choiceIdx hne
  obtain ⟨kv, rest, hc⟩ := corpus_cons_of_ne_nil hne
  have hks : dictKeys corpus = kv.1 :: dictKeys rest := by rw [hc]; rfl
  constructor
  · obtain ⟨s', hloop, _, _, _⟩ := sampleLoop_ok corpus d draws n 0
      ⟨startPage corpus choiceIdx, [], []⟩ hstart (fun kw hkw => by simp at hkw)
    have hok : samplePagerank corpus d n choiceIdx draws =
        .ok (s'.pagesCount.map (fun kw => (kw.1, (kw.2 : ℚ) / (n : ℚ)))) := by
      simp only [samplePagerank, hks, hloop]
    exact ⟨_, hok⟩
  · have h0 : sampleLoop corpus d draws 0 0
        ⟨startPage corpus choiceIdx, [], []⟩ =
        .ok ⟨startPage corpus choiceIdx, [], []⟩ := rfl
    simp only [samplePagerank, hks, h0]
    rfl

/-- Witness for C8 (amended) at the corpus `{A:{B,C}, B:{C}, C:{B}}` with
the invalid damping factor 2. -/
theorem sample_pagerank_no_validation_witness :
    (∃ out, samplePagerank exCorpus3 2 7 0 (fun _ => 1 / 2) = .ok out) ∧
    samplePagerank exCorpus3 2 0 0 (fun _ => 1 / 2) = .ok [] :=
  sample_pagerank_no_validation exCorpus3 2 7 0 (fun _ => 1 / 2) (by decide)

/-- C9: on a non-empty corpus with `n ≥ 1` samples, `sample_pagerank`
returns a map with an entry exactly for each page visited during the
`n`-step walk, valued at its visit count over `n`; the values sum to
exactly 1, and an `n = 1` run returns the single entry `(start, 1)`.
Unvisited pages are simply absent. -/
theorem sample_pagerank_visit_frequencies (corpus : Corpus) (d : ℚ)
    (n choiceIdx : Nat) (draws : Nat → ℚ) (hne : corpus ≠ []) (hn : 1 ≤ n) :
    ∃ out, samplePagerank corpus d n choiceIdx draws = .ok out ∧
      (∀ q, dlookup out q =
        (if q ∈ sampleVisits corpus d draws n 0 ⟨startPage corpus choiceIdx, [], []⟩
         then some (((sampleVisits corpus d draws n 0
             ⟨startPage corpus choiceIdx, [], []⟩).count q : ℚ) / (n : ℚ))
         else none)) ∧
      sumValues out = 1 ∧
      (n = 1 → out = [(startPage corpus choiceIdx, 1)]) := by
  have hstart := startPage_mem corpus choiceIdx hne
  obtain ⟨kv, rest, hc⟩ := corpus_cons_of_ne_nil hne
  have hks : dictKeys corpus = kv.1 :: dictKeys rest := by rw [hc]; rfl
  obtain ⟨s', hloop, hgetD, hsome, hsum⟩ := sampleLoop_ok corpus d draws n 0
    ⟨startPage corpus choiceIdx, [], []⟩ hstart (fun kw hkw => by simp at hkw)
  have hnn : (n : ℚ) ≠ 0 := by
    exact_mod_cast Nat.one_le_iff_ne_zero.mp hn
  refine ⟨s'.pagesCount.map (fun kw => (kw.1, (kw.2 : ℚ) / (n : ℚ))), ?_, ?_, ?_, ?_⟩
  · simp only [samplePagerank, hks, hloop]
  · intro q
    rw [dlookup_rankmap]
    have h1 := hgetD q
    have h2 := hsome q
    simp only [dlookup, Option.getD_none, Option.isSome_none, Bool.false_or,
      zero_add] at h1 h2
    by_cases hq : q ∈ sampleVisits corpus d draws n 0
        ⟨startPage corpus choiceIdx, [], []⟩
    · rw [if_pos hq]
      have hs : (dlookup s'.pagesCount q).isSome = true := by
        rw [h2]; simp [hq]
      obtain ⟨c, hcq⟩ := Option.isSome_iff_exists.mp hs
      rw [hcq, Option.getD_some] at h1
      rw [hcq]
      simp [h1]
    · rw [if_neg hq]
      have hs : ¬ (dlookup s'.pagesCount q).isSome = true := by
        rw [h2]; simp [hq]
      rw [Option.not_isSome_iff_eq_none.mp hs]
      rfl
  · unfold sumValues
    have hzero : (List.map Prod.snd
        ((⟨startPage corpus choiceIdx, [], []⟩ : SampleState).pagesCount)).sum = 0 := rfl
    rw [map_snd_rankmap, sum_map_cast_div, hsum, hzero, Nat.zero_add]
    exact div_self hnn
  · intro hn1
    subst hn1
    obtain ⟨s₁, hstep, _, _, hcnt₁⟩ := sampleStep_ok corpus d (draws 0)
      ⟨startPage corpus choiceIdx, [], []⟩ hstart (fun kw hkw => by simp at hkw)
    have hone : sampleLoop corpus d draws 1 0
        ⟨startPage corpus choiceIdx, [], []⟩ = .ok s₁ := by
      have hunfold : sampleLoop corpus d draws 1 0
          ⟨startPage corpus choiceIdx, [], []⟩ =
          match sampleStep corpus d (draws 0)
              ⟨startPage corpus choiceIdx, [], []⟩ with
          | .error e => .error e
          | .ok s₂ => sampleLoop corpus d draws 0 1 s₂ := rfl
      rw [hunfold, hstep]
      rfl
    have : s' = s₁ := by
      rw [hone] at hloop
      injection hloop with h
      exact h.symm
    subst this
    rw [hcnt₁]
    simp [bumpCount]

/-- Witness for C9 at the corpus `{A:{B,C}, B:{C}, C:{B}}`, damping factor
0.85, three samples, all draws 1/2. -/
theorem sample_pagerank_visit_frequencies_witness :
    ∃ out, samplePagerank exCorpus3 (17 / 20) 3 0 (fun _ => 1 / 2) = .ok out ∧
      (∀ q, dlookup out q =
        (if q ∈ sampleVisits exCorpus3 (17 / 20) (fun _ => 1 / 2) 3 0
              ⟨startPage exCorpus3 0, [], []⟩
         then some (((sampleVisits exCorpus3 (17 / 20) (fun _ => 1 / 2) 3 0
             ⟨startPage exCorpus3 0, [], []⟩).count q : ℚ) / ((3 : Nat) : ℚ))
         else none)) ∧
      sumValues out = 1 ∧
      ((3 : Nat) = 1 → out = [(startPage exCorpus3 0, 1)]) :=
  sample_pagerank_visit_frequencies exCorpus3 (17 / 20) 3 0 (fun _ => 1 / 2)
    (by decide) (by decide)

/-! ### Iterative solver lemmas -/

theorem iterStep_ok_spec {corpus : Corpus} {d : ℚ} {mentions : Dict (List Page)}
    {s s' : IterState} (h : iterStep corpus d mentions s = .ok s') :
    ∃ pg oldRank newRank,
      (dictKeys corpus).get? (s.currentCount % corpus.length) = some pg ∧
      dlookup s.pageRanks pg = some oldRank ∧
      s'.pageRanks = setVal s.pageRanks pg newRank ∧
      s'.currentCount = s.currentCount + 1 ∧
      s'.convergenceCount =
        specConvergenceCounter (1 / 1000) |oldRank - newRank| s.convergenceCount := by
  unfold iterStep at h
  cases hA : (dictKeys corpus).get? (s.currentCount % corpus.length) with
  | none =>
    simp only [hA] at h
    exact Except.noConfusion h
  | some pg =>
    simp only [hA] at h
    cases hB : referencesResult corpus d mentions s pg with
    | error e =>
      simp only [hB] at h
      exact Except.noConfusion h
    | ok pr =>
      obtain ⟨referencesSum, referencePage⟩ := pr
      simp only [hB] at h
      cases hF : dlookup s.pageRanks pg with
      | none =>
        simp only [hF] at h
        exact Except.noConfusion h
      | some oldRank =>
        simp only [hF] at h
        injection h with h
        subst h
        exact ⟨pg, oldRank, _, rfl, hF, rfl, rfl, rfl⟩

theorem iterStep_conv_bound {corpus : Corpus} {d : ℚ} {mentions : Dict (List Page)}
    {s s' : IterState} (h : iterStep corpus d mentions s = .ok s') :
    s'.convergenceCount ≤ s.convergenceCount + 1 := by
  obtain ⟨pg, o, nw, _, _, _, _, hconv⟩ := iterStep_ok_spec h
  rw [hconv]
  unfold specConvergenceCounter
  split <;> omega

theorem iterLoop_stops_exact (corpus : Corpus) (d : ℚ) (mentions : Dict (List Page)) :
    ∀ (fuel : Nat) (s sf : IterState), s.convergenceCount ≤ corpus.length →
      iterLoop corpus d mentions fuel s = .ok (some sf) →
      sf.convergenceCount = corpus.length := by
  intro fuel
  induction fuel with
  | zero =>
    intro s sf _ h
    simp [iterLoop] at h
  | succ m ih =>
    intro s sf hle h
    unfold iterLoop at h
    by_cases hc : s.convergenceCount ≥ corpus.length
    · rw [if_pos hc] at h
      injection h with h
      injection h with h
      subst h
      omega
    · rw [if_neg hc] at h
      cases hstep : iterStep corpus d mentions s with
      | error e =>
        simp only [hstep] at h
        exact Except.noConfusion h
      | ok s₁ =>
        simp only [hstep] at h
        have hb := iterStep_conv_bound hstep
        exact ih s₁ sf (by omega) h

theorem iterLoop_stops_now (corpus : Corpus) (d : ℚ) (mentions : Dict (List Page))
    (fuel : Nat) (s : IterState) (h : corpus.length ≤ s.convergenceCount) :
    iterLoop corpus d mentions (fuel + 1) s = .ok (some s) := by
  unfold iterLoop
  rw [if_pos h]

/-! ### C5, C2, C3 -/

/-- C5: each loop iteration updates the round-robin page
`pages_list[current_count % N]`, writing the new rank in place at once
(later iterations of the same cycle read it — Gauss-Seidel, shown
concretely on a 3-page graph where the second update uses the first's
fresh value 37/60, not the frozen 1/3); the convergence counter follows
the spec's rule (increment on a change ≤ 0.001, reset to 0 otherwise),
the loop returns as soon as the counter reaches N, and whenever it
returns the counter is exactly N. -/
theorem iterate_pagerank_update_policy :
    (∀ (corpus : Corpus) (d : ℚ) (mentions : Dict (List Page)) (s s' : IterState),
      iterStep corpus d mentions s = .ok s' →
      ∃ pg oldRank newRank,
        (dictKeys corpus).get? (s.currentCount % corpus.length) = some pg ∧
        dlookup s.pageRanks pg = some oldRank ∧
        s'.pageRanks = setVal s.pageRanks pg newRank ∧
        s'.currentCount = s.currentCount + 1 ∧
        s'.convergenceCount =
          specConvergenceCounter (1 / 1000) |oldRank - newRank| s.convergenceCount) ∧
    (∀ (corpus : Corpus) (d : ℚ) (mentions : Dict (List Page)) (fuel : Nat)
      (s sf : IterState), s.convergenceCount ≤ corpus.length →
      iterLoop corpus d mentions fuel s = .ok (some sf) →
      sf.convergenceCount = corpus.length) ∧
    (∀ (corpus : Corpus) (d : ℚ) (mentions : Dict (List Page)) (fuel : Nat)
      (s : IterState), corpus.length ≤ s.convergenceCount →
      iterLoop corpus d mentions (fuel + 1) s = .ok (some s)) ∧
    (∃ s1 s2,
      iterStep exCorpusNoInbound (17 / 20) (buildMentions exCorpusNoInbound)
        (initialIterState exCorpusNoInbound) = .ok s1 ∧
      iterStep exCorpusNoInbound (17 / 20) (buildMentions exCorpusNoInbound) s1 =
        .ok s2 ∧
      dlookup s1.pageRanks "A" = some (37 / 60) ∧
      dlookup s2.pageRanks "B" = some (689 / 1200) ∧
      (689 / 1200 : ℚ) = (1 - 17 / 20) / 3 + (17 / 20) * ((37 / 60) / 1) ∧
      (689 / 1200 : ℚ) ≠ (1 - 17 / 20) / 3 + (17 / 20) * ((1 / 3) / 1)) := by
  refine ⟨fun corpus d mentions s s' h => iterStep_ok_spec h,
    fun corpus d mentions fuel s sf hle h =>
      iterLoop_stops_exact corpus d mentions fuel s sf hle h,
    fun corpus d mentions fuel s h => iterLoop_stops_now corpus d mentions fuel s h,
    ⟨[("A", 37 / 60), ("B", 1 / 3), ("C", 1 / 3)], 1, 0, some "C"⟩,
    ⟨[("A", 37 / 60), ("B", 689 / 1200), ("C", 1 / 3)], 2, 0, some "A"⟩,
    ?_, ?_, ?_, ?_, ?_, ?_⟩
  · simp [iterStep, referencesResult, referencesSumAux, dlookup, dictKeys,
      initialIterState, initialRanks, buildMentions, addMention, setVal,
      exCorpusNoInbound]
    norm_num [abs_of_pos, abs_neg]
  · simp [iterStep, referencesResult, referencesSumAux, dlookup, dictKeys,
      buildMentions, addMention, setVal, exCorpusNoInbound]
    norm_num [abs_of_pos, abs_neg]
  · simp [dlookup]
  · simp [dlookup]
  · norm_num
  · norm_num

/-- C2's evaluation at the failing inputs: on the one-page corpus `{A:{}}`
the very first update has no inbound contributors and `reference_page` was
never assigned, so the run aborts with the NameError the interpreter
raises; and on `{A:{B}, B:{A}, C:{A}}` the third update (page C, no
inbound links) silently reads the stale `reference_page` left by B's
update, giving C the rank 809/3600 instead of the teleport-only
`(1-d)/N = 1/20` the claim requires. -/
theorem iterate_pagerank_undefined_read :
    iteratePagerank exCorpusLonely (17 / 20) 5 = .error "NameError" ∧
    (∃ s1 s2 s3,
      iterStep exCorpusNoInbound (17 / 20) (buildMentions exCorpusNoInbound)
        (initialIterState exCorpusNoInbound) = .ok s1 ∧
      iterStep exCorpusNoInbound (17 / 20) (buildMentions exCorpusNoInbound) s1 =
        .ok s2 ∧
      iterStep exCorpusNoInbound (17 / 20) (buildMentions exCorpusNoInbound) s2 =
        .ok s3 ∧
      dlookup s3.pageRanks "C" = some (809 / 3600) ∧
      (809 / 3600 : ℚ) ≠ (1 - 17 / 20) / 3) := by
  refine ⟨rfl,
    ⟨[("A", 37 / 60), ("B", 1 / 3), ("C", 1 / 3)], 1, 0, some "C"⟩,
    ⟨[("A", 37 / 60), ("B", 689 / 1200), ("C", 1 / 3)], 2, 0, some "A"⟩,
    ⟨[("A", 37 / 60), ("B", 689 / 1200), ("C", 809 / 3600)], 3, 0, some "A"⟩,
    ?_, ?_, ?_, ?_, ?_⟩
  · simp [iterStep, referencesResult, referencesSumAux, dlookup, dictKeys,
      initialIterState, initialRanks, buildMentions, addMention, setVal,
      exCorpusNoInbound]
    norm_num [abs_of_pos, abs_neg]
  · simp [iterStep, referencesResult, referencesSumAux, dlookup, dictKeys,
      buildMentions, addMention, setVal, exCorpusNoInbound]
    norm_num [abs_of_pos, abs_neg]
  · simp [iterStep, referencesResult, referencesSumAux, dlookup, dictKeys,
      buildMentions, addMention, setVal, exCorpusNoInbound]
    norm_num [abs_of_pos, abs_neg]
  · simp [dlookup]
  · norm_num

/-- C3's evaluation: in the 4-page corpus `{A:{B,D}, B:{C,D}, C:{A,D},
D:{}}` with dangling page D, the reverse index records D as an inbound
contributor of no page at all, and the first update (page A, with damping
factor 0.85 and all ranks 1/4) computes only `(1-d)/4 + d·(1/4)/2` from
its sole contributor C — the term `rank(D)/4` the claim requires never
enters any inbound sum. -/
theorem iterate_pagerank_dangling_lost :
    (∀ kv ∈ buildMentions exCorpus4, "D" ∉ kv.2) ∧
    (∃ s1, iterStep exCorpus4 (17 / 20) (buildMentions exCorpus4)
        (initialIterState exCorpus4) = .ok s1 ∧
      dlookup s1.pageRanks "A" = some (23 / 160) ∧
      ((1 - 17 / 20) / 4 + (17 / 20) * ((1 / 4) / 2) : ℚ) = 23 / 160) ∧
    ((1 - 17 / 20) / 4 + (17 / 20) * ((1 / 4) / 2) : ℚ) ≠
      (1 - 17 / 20) / 4 + (17 / 20) * ((1 / 4) / 2 + (1 / 4) / 4) := by
  refine ⟨by decide,
    ⟨⟨[("A", 23 / 160), ("B", 1 / 4), ("C", 1 / 4), ("D", 1 / 4)], 1, 0, some "C"⟩,
     ?_, ?_, ?_⟩, by norm_num⟩
  · simp [iterStep, referencesResult, referencesSumAux, dlookup, dictKeys,
      initialIterState, initialRanks, buildMentions, addMention, setVal,
      exCorpus4]
    norm_num [abs_of_pos, abs_neg]
  · simp [dlookup]
  · norm_num

end PageRank
